import Mathlib

/-!
Verification of the thief-reader chapter segmentation and scroll-cursor engine.

Shallow embedding of the JavaScript source (src/unnamed/part_001, the current
evolution of extension.js).  Strings are modelled as `List Char` (JS strings;
lengths count characters).  JS numbers holding character offsets are modelled
as `Int`; fallible code paths (JS TypeError) return `Option`.
-/

namespace ThiefReader

/-- The JS `\s` whitespace class (the code points matched by `\s` in
ECMAScript regular expressions, and trimmed by `String.prototype.trim`). -/
def isJsWs (c : Char) : Bool :=
  c = ' ' ∨ c = '\t' ∨ c = '\n' ∨ c = '\r' ∨ c = '\x0b' ∨ c = '\x0c' ∨
  c = ' ' ∨ c = ' ' ∨
  (' ' ≤ c ∧ c ≤ ' ') ∨
  c = ' ' ∨ c = ' ' ∨ c = ' ' ∨ c = ' ' ∨
  c = '　' ∨ c = '﻿'

/-- ASCII digit, the JS `\d` class. -/
def isAsciiDigit (c : Char) : Bool := '0' ≤ c ∧ c ≤ '9'

/-- The Chinese numerals accepted by the chapter patterns. -/
def chineseNums : List Char := ['一', '二', '三', '四', '五', '六', '七', '八', '九', '十']

/-- `String.prototype.trim`: strip JS whitespace from both ends. -/
def jsTrim (s : List Char) : List Char :=
  ((s.dropWhile isJsWs).reverse.dropWhile isJsWs).reverse

/-- `Array.prototype.join(sep)` on a list of strings. -/
def jsJoin (sep : List Char) : List (List Char) → List Char
  | [] => []
  | [x] => x
  | x :: y :: rest => x ++ sep ++ jsJoin sep (y :: rest)

/-- JS `a || b` on strings: the empty string is falsy. -/
def jsOr (a b : List Char) : List Char := if a = [] then b else a

/-- `text.split('\n')` (JS keeps empty pieces; `''.split` gives `['']`). -/
def splitNl : List Char → List (List Char)
  | [] => [[]]
  | c :: rest =>
    if c = '\n' then [] :: splitNl rest
    else
      match splitNl rest with
      | [] => [[c]]
      | p :: ps => (c :: p) :: ps

theorem dropWhile_length_le (p : Char → Bool) (l : List Char) :
    (l.dropWhile p).length ≤ l.length := by
  induction l with
  | nil => simp
  | cons c rest ih =>
    by_cases h : p c
    · simp only [List.dropWhile, h]
      exact Nat.le_succ_of_le ih
    · simp [List.dropWhile, h]

/-- `s.replace(/\s+/g, ' ')`: collapse each maximal whitespace run to one space. -/
def collapseWs : List Char → List Char
  | [] => []
  | c :: rest =>
    if isJsWs c then ' ' :: collapseWs (rest.dropWhile isJsWs)
    else c :: collapseWs rest
termination_by s => s.length
decreasing_by
  · simp only [List.length_cons]
    exact Nat.lt_succ_of_le (dropWhile_length_le _ _)
  · simp

/-- Index of the last `'\n'` in a list, if any. -/
def lastNlIdx : List Char → Option Nat
  | [] => none
  | c :: rest =>
    match lastNlIdx rest with
    | some k => some (k + 1)
    | none => if c = '\n' then some 0 else none

/-- Length of the (greedy, backtracking) match of the separator regex
`/\n\s*\n/` at the head of `s`, if it matches there.  The `\s*` is greedy and
backtracks until the following character is `'\n'`, so the match consumes up to
the last newline inside the whitespace run. -/
def blankSepLen (s : List Char) : Option Nat :=
  match s with
  | c :: rest =>
    if c = '\n' then (lastNlIdx (rest.takeWhile isJsWs)).map (fun k => k + 2)
    else none
  | [] => none

/-- `text.split(/\n\s*\n/)`: scan left to right, flushing the current piece at
each (non-overlapping, leftmost, greedy) separator match.  A separator match
has length `m ≥ 2`, so after the leading character the remaining `m - 1`
matched characters are dropped from `rest`. -/
def splitBlankGo (cur s : List Char) : List (List Char) :=
  match s with
  | [] => [cur.reverse]
  | c :: rest =>
    match blankSepLen (c :: rest) with
    | some m => cur.reverse :: splitBlankGo [] (rest.drop (m - 1))
    | none => splitBlankGo (c :: cur) rest
termination_by s.length
decreasing_by
  · simp only [List.length_cons, List.length_drop]
    omega
  · simp

/-- `text.split(/\n\s*\n/)`. -/
def splitBlank (s : List Char) : List (List Char) := splitBlankGo [] s

/-! ## Chapter boundary patterns (`_extractChapters`, src/unnamed/part_001:3093-3117)

Each JS regular expression is embedded as a bespoke matcher returning the text
captured by its last capture group (`match[match.length - 1]`), reproducing the
greedy/backtracking semantics of the ECMAScript engine.  All patterns are
anchored at the start (`^`) and applied to the trimmed line.  Every matcher
returns a non-empty capture, so the JS `match[...] || match[0]` fallback never
fires. -/

/-- The separator class `[：:\-]` of the Chinese chapter patterns. -/
def sepsCh : List Char := ['：', ':', '-']

/-- The separator class `[:\-]` of the English chapter patterns. -/
def sepsEn : List Char := [':', '-']

/-- The separator class `[、．.]` of the numbered patterns. -/
def numSeps : List Char := ['、', '．', '.']

/-- Capture of `\s*[seps]?\s*(.+)` with backtracking, applied to `rest`:
the greedy whitespace run, an optional separator, more whitespace, then the
(necessarily non-empty) remainder.  When everything after the separator is
whitespace the engine backtracks so that `(.+)` still receives one character. -/
def sepSuffix (seps : List Char) (rest : List Char) : Option (List Char) :=
  match rest.dropWhile isJsWs with
  | [] => rest.getLast?.map (fun w => [w])
  | c :: r2 =>
    if seps.contains c then
      match r2.dropWhile isJsWs with
      | [] =>
        match r2.getLast? with
        | some w => some [w]
        | none => some [c]
      | r3 => some r3
    else some (c :: r2)

/-- Capture of `\s*(.+)` with backtracking, applied to `rest`. -/
def ssSuffix (rest : List Char) : Option (List Char) :=
  match rest.dropWhile isJsWs with
  | [] => rest.getLast?.map (fun w => [w])
  | r => some r

/-- The numeral class `[一二三四五六七八九十\d]`. -/
def isP1Num (c : Char) : Bool := chineseNums.contains c || isAsciiDigit c

/-- `/^第[一二三四五六七八九十\d]+章\s*[：:\-]?\s*(.+)/` -/
def pChapterCn (line : List Char) : Option (List Char) :=
  match line with
  | c :: t =>
    if c = '第' then
      match t.dropWhile isP1Num with
      | hd :: rest =>
        if hd = '章' ∧ t.takeWhile isP1Num ≠ [] then sepSuffix sepsCh rest else none
      | [] => none
    else none
  | [] => none

/-- `/^第\d+章\s*[：:\-]?\s*(.+)/` (subsumed by the previous pattern but kept
in the source list). -/
def pChapterCnDigits (line : List Char) : Option (List Char) :=
  match line with
  | c :: t =>
    if c = '第' then
      match t.dropWhile isAsciiDigit with
      | hd :: rest =>
        if hd = '章' ∧ t.takeWhile isAsciiDigit ≠ [] then sepSuffix sepsCh rest else none
      | [] => none
    else none
  | [] => none

/-- `/^[一二三四五六七八九十]+、\s*(.+)/` -/
def pCnEnum (line : List Char) : Option (List Char) :=
  match line.dropWhile chineseNums.contains with
  | hd :: rest =>
    if hd = '、' ∧ line.takeWhile chineseNums.contains ≠ [] then ssSuffix rest else none
  | [] => none

/-- `/^[\d]+\.\s*(.+)/` -/
def pNumDot (line : List Char) : Option (List Char) :=
  match line.dropWhile isAsciiDigit with
  | hd :: rest =>
    if hd = '.' ∧ line.takeWhile isAsciiDigit ≠ [] then ssSuffix rest else none
  | [] => none

/-- `/^[\d]+[\s]*[、．.]\s*(.+)/` -/
def pNumSep (line : List Char) : Option (List Char) :=
  if line.takeWhile isAsciiDigit = [] then none
  else
    match (line.dropWhile isAsciiDigit).dropWhile isJsWs with
    | c :: rest => if numSeps.contains c then ssSuffix rest else none
    | [] => none

/-- `/^Chapter\s+\d+\s*[:\-]?\s*(.+)/i`.  The suffix `\s*[:\-]?\s*(.+)` fails
only when nothing follows the digit run; the greedy `\d+` then backtracks,
surrendering its last digit (it must keep at least one) to `(.+)`, so a line
such as `"Chapter 12"` matches with capture `"2"`.  Shrinking `\s+` instead
can never succeed, because `\d+` would have to start on a whitespace
character. -/
def pChapterEn (line : List Char) : Option (List Char) :=
  if (line.take 7).map Char.toLower = "chapter".data then
    let t := line.drop 7
    if t.takeWhile isJsWs = [] then none
    else
      let t2 := t.dropWhile isJsWs
      let ds := t2.takeWhile isAsciiDigit
      if ds = [] then none
      else
        match sepSuffix sepsEn (t2.dropWhile isAsciiDigit) with
        | some cap => some cap
        | none =>
          if 2 ≤ ds.length then ds.getLast?.map (fun c => [c]) else none
  else none

/-- `/^CHAPTER\s+\d+\s*[:\-]?\s*(.+)/i`: identical to the previous pattern
(case-insensitivity makes the source duplicate redundant). -/
def pChapterEnUpper (line : List Char) : Option (List Char) := pChapterEn line

/-- Does the tail regex `\s*X{3,}` (nothing after it) match at the head of `s`? -/
def bannerTailOK (mark : Char) (s : List Char) : Bool :=
  [mark, mark, mark].isPrefixOf (s.dropWhile isJsWs)

/-- Longest `p ≥ 1` such that `(.+)` of length `p` leaves a remainder matched
by `\s*X{3,}` (the greedy `(.+)` backtracks from the right). -/
def bannerSearchGo (mark : Char) (rest : List Char) : Nat → Option Nat
  | 0 => none
  | n + 1 => if bannerTailOK mark (rest.drop (n + 1)) then some (n + 1) else bannerSearchGo mark rest n

def bannerSearch (mark : Char) (rest : List Char) : Option Nat :=
  bannerSearchGo mark rest rest.length

/-- Match of `\s*(.+)\s*X{3,}` against `rest` for a fixed leading-run length:
the first `\s*` is greedy but yields to `(.+)`, so the capture spans from
`min(whitespace-run, p-1)` to the chosen split `p`. -/
def bannerAt (mark : Char) (line : List Char) (a : Nat) : Option (List Char) :=
  let rest := line.drop a
  match bannerSearch mark rest with
  | some p =>
    let s1 := min (rest.takeWhile isJsWs).length (p - 1)
    some ((rest.drop s1).take (p - s1))
  | none => none

/-- Backtracking over the greedy leading run `X{3,}`: try the full run first,
then shorter leads down to 3. -/
def bannerGo (mark : Char) (line : List Char) : Nat → Option (List Char)
  | 0 => none
  | a + 1 =>
    if a + 1 < 3 then none
    else
      match bannerAt mark line (a + 1) with
      | some cap => some cap
      | none => bannerGo mark line a

/-- `/^X{3,}\s*(.+)\s*X{3,}/` for `X ∈ {=, -, *}`. -/
def banner (mark : Char) (line : List Char) : Option (List Char) :=
  let k := (line.takeWhile (fun c => c = mark)).length
  if k < 3 then none else bannerGo mark line k

/-- `/^【(.+)】$/` and `/^《(.+)》$/`. -/
def bracketTitle (op cl : Char) (line : List Char) : Option (List Char) :=
  match line with
  | c :: rest =>
    if c = op ∧ line.getLast? = some cl ∧ 3 ≤ line.length then some rest.dropLast
    else none
  | [] => none

/-- `/^(\d+)\s*[、．.]\s*(.+)/`: same last-group capture as `pNumSep` (the
extra leading group does not affect the extracted title). -/
def pNumSepGrouped (line : List Char) : Option (List Char) := pNumSep line

/-- `/^(\d+)\s+(.+)/`: digits, at least one whitespace, then the rest.  When
everything after the digits is whitespace, `\s+` backtracks but must keep one
character, so a match needs at least two characters after the digits. -/
def pNumSpace (line : List Char) : Option (List Char) :=
  if line.takeWhile isAsciiDigit = [] then none
  else
    let rest := line.dropWhile isAsciiDigit
    if rest.takeWhile isJsWs = [] then none
    else
      match rest.dropWhile isJsWs with
      | [] => if 2 ≤ rest.length then rest.getLast?.map (fun w => [w]) else none
      | r => some r

/-- The ordered pattern cascade of `_extractChapters` (first match wins). -/
def chapterPatterns : List (List Char → Option (List Char)) :=
  [pChapterCn, pChapterCnDigits, pCnEnum, pNumDot, pNumSep,
   pChapterEn, pChapterEnUpper,
   banner '=', banner '-', banner '*',
   bracketTitle '【' '】', bracketTitle '《' '》',
   pNumSepGrouped, pNumSpace]

def firstMatch : List (List Char → Option (List Char)) → List Char → Option (List Char)
  | [], _ => none
  | p :: ps, line =>
    match p line with
    | some cap => some cap
    | none => firstMatch ps line

/-- `chapterTitle.replace(/^\s*[：:\-]\s*/, '')`: strip one leading separator
(with surrounding whitespace) if present; otherwise leave the title unchanged. -/
def stripSep (t : List Char) : List Char :=
  match t.dropWhile isJsWs with
  | c :: r2 => if sepsCh.contains c then r2.dropWhile isJsWs else t
  | [] => t

def cleanTitle (t : List Char) : List Char := jsTrim (stripSep t)

/-- The character class `[A-Z\s\d\-_]` of the all-caps title heuristic. -/
def isCapsClass (c : Char) : Bool :=
  ('A' ≤ c ∧ c ≤ 'Z') ∨ isJsWs c ∨ isAsciiDigit c ∨ c = '-' ∨ c = '_'

/-- The fixed front/back-matter vocabulary of the keyword heuristic. -/
def titleKeywords : List (List Char) :=
  ["序言".data, "前言".data, "引言".data, "结语".data, "附录".data,
   "目录".data, "索引".data, "参考文献".data, "致谢".data]

def keywordStart (line : List Char) : Bool :=
  titleKeywords.any (fun k => k.isPrefixOf line)

/-- Boundary test plus title extraction for one trimmed line: the pattern
cascade (title cleaned), then the short-line heuristics. -/
def matchLine (line : List Char) : Option (List Char) :=
  match firstMatch chapterPatterns line with
  | some cap => some (cleanTitle cap)
  | none =>
    if 2 < line.length ∧ line.length < 50 then
      if line.all isCapsClass then some line
      else if keywordStart line then some line
      else none
    else none

/-- A chapter as produced by segmentation (`{title, startLine, content}`). -/
structure Chapter where
  title : List Char
  startLine : Nat
  content : List (List Char)
deriving DecidableEq, Repr

/-- The line scan of `_extractChapters`: a boundary line flushes the open
chapter and opens a new one; a non-boundary line longer than 5 characters is
appended to the open chapter, and is dropped when no chapter is open. -/
def extractGo (i : Nat) (cur : Option Chapter) : List (List Char) → List Chapter
  | [] => cur.toList
  | l :: rest =>
    let line := jsTrim l
    if line = [] then extractGo (i + 1) cur rest
    else
      match matchLine line with
      | some title => cur.toList ++ extractGo (i + 1) (some ⟨title, i, []⟩) rest
      | none =>
        match cur with
        | some c =>
          if 5 < line.length then
            extractGo (i + 1) (some ⟨c.title, c.startLine, c.content ++ [line]⟩) rest
          else extractGo (i + 1) (some c) rest
        | none => extractGo (i + 1) none rest

/-- `_extractChapters` (src/unnamed/part_001:3086-3180). -/
def extractChapters (text : List Char) : List Chapter :=
  extractGo 0 none (splitNl text)

/-- The `substring(0, 10) + (length > 10 ? '...' : '')` title rule. -/
def take10Title (t : List Char) : List Char :=
  t.take 10 ++ (if 10 < t.length then "...".data else [])

/-- The local `paragraphs` of `_createFallbackChapters`:
`text.split(/\n\s*\n/).filter(p => p.trim().length > 0)`. -/
def fbParagraphs (text : List Char) : List (List Char) :=
  (splitBlank text).filter (fun p => 0 < (jsTrim p).length)

/-- The local `lines` of the no-paragraph branch:
`text.split('\n').filter(line => line.trim().length > 0)`. -/
def fbLines (text : List Char) : List (List Char) :=
  (splitNl text).filter (fun l => 0 < (jsTrim l).length)

/-- The local `cleanContent = text.trim().replace(/\s+/g, ' ')`. -/
def fbClean (text : List Char) : List Char := collapseWs (jsTrim text)

/-- The `chapters` array built by `_createFallbackChapters`
(src/unnamed/part_001:3013-3069) before the final bolster. -/
def fallbackRaw (text : List Char) : List Chapter :=
  if (fbParagraphs text).length = 0 then
    if (fbLines text).length = 0 then
      if (fbClean text).length = 0 then [⟨"（空内容）".data, 0, []⟩]
      else [⟨jsOr ((fbClean text).take 10) "（空内容）".data, 0, [fbClean text]⟩]
    else
      (fbLines text).map fun l =>
        ⟨jsOr (take10Title (jsTrim l)) "（无标题）".data, 0, [jsTrim l]⟩
  else
    (fbParagraphs text).filterMap fun p =>
      match (splitNl p).filter (fun l => 0 < (jsTrim l).length) with
      | [] => none
      | first :: _ =>
        some ⟨jsOr (take10Title (jsTrim first)) "（无标题）".data, 0,
          (splitNl p).filter (fun l => 0 < (jsTrim l).length)⟩

/-- `_createFallbackChapters` (src/unnamed/part_001:3012-3081): the branch
cascade above plus the final guarantee of at least one chapter. -/
def createFallbackChapters (text : List Char) : List Chapter :=
  if (fallbackRaw text).length = 0 then [⟨"（空内容）".data, 0, []⟩]
  else fallbackRaw text

/-- `_extractChaptersWithFallback` (src/unnamed/part_001:2995-3007). -/
def extractChaptersWithFallback (text : List Char) : List Chapter :=
  let cs := extractChapters text
  if 0 < cs.length then cs else createFallbackChapters text

/-! ## Content flattening and the cross-surface reconciler -/

/-- Chapter content as it occurs at runtime: either the array of lines
produced by segmentation or an already-joined string (restore paths). -/
inductive ChapterContent where
  | arr (lines : List (List Char))
  | str (s : List Char)
deriving DecidableEq

/-- `getChapterContentAsString` (src/unnamed/part_001:261-274): arrays are
joined with a newline, strings are returned unchanged.  (The defensive
`String(content)` branch for other runtime types has no counterpart in the
typed model.) -/
def getChapterContentAsString : ChapterContent → List Char
  | .arr lines => jsJoin ['\n'] lines
  | .str s => s

/-- The offset committed by `_syncLastScrollPositionToStatusBar`
(src/unnamed/part_001:470-513): use the cached character offset; when it is 0
and the cached scroll percentage is positive, derive
`Math.floor(percentage * length)` instead; then clamp the result with
`Math.max(0, Math.min(·, length - 1))`.  The scroll percentage (a JS float)
is modelled as a rational number. -/
def syncCommitOffset (content : ChapterContent) (lastCharOffset : Int) (lastPct : ℚ) : Int :=
  let full := getChapterContentAsString content
  let len : Int := full.length
  let n :=
    if lastCharOffset = 0 ∧ 0 < lastPct then ⌊lastPct * (full.length : ℚ)⌋
    else lastCharOffset
  max 0 (min n (len - 1))

/-! ## The narrow display surface (`_displayChapterText`) -/

/-- Outcome of `_displayChapterText` (src/unnamed/part_001:3297-3341): the
clamped offset written back to `_scrollOffset`, the window of text shown, and
the scroll indicator (empty when the text fits the window). -/
structure DisplayResult where
  newOffset : Int
  shown : List Char
  indicator : List Char
deriving DecidableEq

/-- The fixed window width of the status-bar surface. -/
def displayLength : Int := 80

/-- The local `fullContent = chapter.content.join(' ')`. -/
def dispFull (content : List (List Char)) : List Char := jsJoin [' '] content

/-- The local `totalLength`. -/
def dispTotal (content : List (List Char)) : Int := (dispFull content).length

/-- The local `maxScrollOffset = Math.max(0, totalLength - 1)`. -/
def dispMaxOff (content : List (List Char)) : Int := max 0 (dispTotal content - 1)

/-- The clamped `this._scrollOffset = Math.max(0, Math.min(offset, maxScrollOffset))`. -/
def dispOff (content : List (List Char)) (offset : Int) : Int :=
  max 0 (min offset (dispMaxOff content))

/-- The local `actualEndPos = Math.min(offset + displayLength, totalLength)`. -/
def dispEnd (content : List (List Char)) (offset : Int) : Int :=
  min (dispOff content offset + displayLength) (dispTotal content)

/-- `_displayChapterText` on a chapter whose content is the line array
`content`: join with a single space, clamp the offset into
`[0, max 0 (length - 1)]`, show `substring(offset, min(offset + 80, length))`,
and append the ` [offset-end/total]` indicator exactly when the text is longer
than the window. -/
def displayChapterText (content : List (List Char)) (offset : Int) : DisplayResult :=
  ⟨dispOff content offset,
   ((dispFull content).drop (dispOff content offset).toNat).take
     (dispEnd content offset - dispOff content offset).toNat,
   if displayLength < dispTotal content then
     " [".data ++ (toString (dispOff content offset)).data ++ "-".data ++
       (toString (dispEnd content offset)).data ++ "/".data ++
       (toString (dispTotal content)).data ++ "]".data
   else []⟩

/-! ## The scroll cursor model

State of the reader provider relevant to navigation: the selected file (its
chapters and per-chapter offset map), the selected chapter, the scroll offset,
and the status-bar visibility flag (which gates the re-clamping performed by
`_displayChapterText`).  Operations that would throw a `TypeError` in JS
return `none`. -/

structure FileEntry where
  chapters : List Chapter
  chapterPositions : List (Nat × Int)
deriving DecidableEq

structure RState where
  currentFile : Option FileEntry
  currentChapter : Option Nat
  scrollOffset : Int
  statusBarVisible : Bool
deriving DecidableEq

/-- The flattened chapter text used by the navigation commands and the narrow
surface: content lines joined with a single space. -/
def flattenSpace (ch : Chapter) : List Char := jsJoin [' '] ch.content

/-- `maxScrollOffset = Math.max(0, totalLength - 1)`. -/
def maxOffsetOf (ch : Chapter) : Int := max 0 (((flattenSpace ch).length : Int) - 1)

/-- The `_scrollOffset` mutation performed inside `_displayChapterText`:
skipped when the chapter is undefined or the status bar is hidden. -/
def displayClampState (s : RState) (chapterQ : Option Chapter) : RState :=
  match chapterQ with
  | some ch =>
    if s.statusBarVisible then
      { s with scrollOffset := max 0 (min s.scrollOffset (maxOffsetOf ch)) }
    else s
  | none => s

/-- `_saveChapterPosition` (src/unnamed/part_001:2114-2124): record the offset
for a chapter index in the current file's position map (no-op without a file). -/
def savePos (s : RState) (c : Nat) (v : Int) : RState :=
  match s.currentFile with
  | some f =>
    { s with currentFile := some { f with chapterPositions := (c, v) :: f.chapterPositions } }
  | none => s

/-- Lookup in the per-chapter offset map, `?? 0` on a missing entry. -/
def lookupPos (l : List (Nat × Int)) (i : Nat) : Int :=
  ((l.find? (fun p => p.1 == i)).map (fun p => p.2)).getD 0

/-- `_getChapterPosition` (src/unnamed/part_001:2129-2140). -/
def getPos (s : RState) (i : Nat) : Int :=
  match s.currentFile with
  | some f => lookupPos f.chapterPositions i
  | none => 0

/-- `_scrollLeft` (k = 10, src/unnamed/part_001:3446-3459) and `_previousPage`
(k = 80, src/unnamed/part_001:3408-3421): guarded by a selected chapter and
file; move only when the offset is positive, clamping below at 0; then the
display re-clamps and the position is saved. -/
def stepBack (k : Int) (s : RState) : Option RState :=
  match s.currentChapter, s.currentFile with
  | some c, some f =>
    if 0 < s.scrollOffset then
      let s1 := { s with scrollOffset := max 0 (s.scrollOffset - k) }
      let s2 := displayClampState s1 (f.chapters.get? c)
      some (savePos s2 c s2.scrollOffset)
    else some s
  | _, _ => some s

/-- `_scrollRight` (k = 10, src/unnamed/part_001:3464-3479) and `_nextPage`
(k = 80, src/unnamed/part_001:3426-3441): these dereference
`chapter.content`, so an out-of-range chapter index is a JS `TypeError`
(`none`); move only when the offset is below the maximum, clamping above. -/
def stepFwd (k : Int) (s : RState) : Option RState :=
  match s.currentChapter, s.currentFile with
  | some c, some f =>
    match f.chapters.get? c with
    | none => none
    | some ch =>
      if s.scrollOffset < maxOffsetOf ch then
        let s1 := { s with scrollOffset := min (maxOffsetOf ch) (s.scrollOffset + k) }
        let s2 := displayClampState s1 (some ch)
        some (savePos s2 c s2.scrollOffset)
      else some s
  | _, _ => some s

/-- `_selectChapter` (src/unnamed/part_001:3246-3280): bounds-checked; on a
change of chapter the outgoing offset is saved first, then the incoming
chapter's saved offset (default 0) is restored and the display re-clamps. -/
def selectChapterOp (i : Int) (s : RState) : Option RState :=
  match s.currentFile with
  | none => some s
  | some f =>
    if 0 ≤ i ∧ i < (f.chapters.length : Int) then
      let iN := i.toNat
      let s1 :=
        match s.currentChapter with
        | some c => if c ≠ iN then savePos s c s.scrollOffset else s
        | none => s
      let s2 := { s1 with currentChapter := some iN, scrollOffset := getPos s1 iN }
      some (displayClampState s2 (f.chapters.get? iN))
    else some s

/-- The navigation commands of the scroll cursor model. -/
inductive NavOp where
  | scrollLeft
  | scrollRight
  | previousPage
  | nextPage
  | selectChapter (i : Int)
deriving DecidableEq

def applyNav : NavOp → RState → Option RState
  | .scrollLeft => stepBack 10
  | .scrollRight => stepFwd 10
  | .previousPage => stepBack 80
  | .nextPage => stepFwd 80
  | .selectChapter i => selectChapterOp i

def runNav : List NavOp → RState → Option RState
  | [], s => some s
  | op :: ops, s => (applyNav op s).bind (runNav ops)

/-- The provider state right after construction
(src/unnamed/part_001:1712-1718): no file, no chapter, offset 0. -/
def initReaderState : RState :=
  { currentFile := none, currentChapter := none, scrollOffset := 0, statusBarVisible := true }

/-- A map entry (or the live offset) is valid for chapter index `c`:
the chapter exists and the offset lies in `[0, maxOffset]`. -/
def posOK (f : FileEntry) (c : Nat) (v : Int) : Prop :=
  ∃ ch, f.chapters.get? c = some ch ∧ 0 ≤ v ∧ v ≤ maxOffsetOf ch

def posMapOK (f : FileEntry) : Prop := ∀ p ∈ f.chapterPositions, posOK f p.1 p.2

/-- The cursor invariant: with no file the cursor is empty and the offset 0;
with a file, the selected chapter (if any) exists and the offset is within its
range, the offset is 0 when no chapter is selected, and every entry of the
per-chapter offset map is within its chapter's range. -/
def GoodState (s : RState) : Prop :=
  match s.currentFile, s.currentChapter with
  | none, cc => cc = none ∧ s.scrollOffset = 0
  | some f, none => s.scrollOffset = 0 ∧ posMapOK f
  | some f, some c => posOK f c s.scrollOffset ∧ posMapOK f

/-! ## Startup restore (`_restoreData` / `_restoreFileReadingPosition`) -/

/-- The persisted per-document fields consumed by restore. -/
structure SavedDocRecord where
  fullText : List Char
  lastChapter : Option Int
  lastScrollOffset : Option Int
deriving DecidableEq

/-- A document as it exists after restore. -/
structure RestoredDoc where
  chapters : List Chapter
  lastChapter : Option Int
  lastScrollOffset : Int
deriving DecidableEq

/-- Restore of a pasted document (src/unnamed/part_001:1791-1809): the stored
text is resegmented, and the stored reading position is copied over without
any validation against the fresh chapter count. -/
def restorePastedDoc (saved : SavedDocRecord) : RestoredDoc :=
  { chapters := extractChaptersWithFallback saved.fullText
  , lastChapter := saved.lastChapter
  , lastScrollOffset := saved.lastScrollOffset.getD 0 }

/-- Restore of a successfully reloaded file-backed document
(src/unnamed/part_001:1838-1852): after copying the stored position, a stored
`lastChapter` that is `≥` the fresh chapter count resets both the chapter
index and the offset to 0. -/
def restoreLoadedFileDoc (saved : SavedDocRecord) (freshChapters : List Chapter) : RestoredDoc :=
  let base : RestoredDoc :=
    { chapters := freshChapters
    , lastChapter := saved.lastChapter
    , lastScrollOffset := saved.lastScrollOffset.getD 0 }
  match base.lastChapter with
  | some lc =>
    if (freshChapters.length : Int) ≤ lc then
      { base with lastChapter := some 0, lastScrollOffset := 0 }
    else base
  | none => base

/-- `_restoreFileReadingPosition` (src/unnamed/part_001:2145-2168): the
session cursor `(currentChapter, scrollOffset)` computed when a document
becomes current.  An out-of-range stored chapter resets to chapter 0 (or no
chapter when the document has none) and offset 0. -/
def restoreFileReadingPosition (doc : RestoredDoc) : Option Int × Int :=
  match doc.lastChapter with
  | some lc =>
    if (doc.chapters.length : Int) ≤ lc then
      (if 0 < doc.chapters.length then some 0 else none, 0)
    else (some lc, doc.lastScrollOffset)
  | none => (if 0 < doc.chapters.length then some 0 else none, 0)

/-! ## The persistence coordinator (`_saveCurrentState` debounce) -/

/-- Coordinator state: the restore flag, the pending debounce timer (by
`setTimeout` handle), and a counter generating fresh handles. -/
structure PersistState where
  isRestoring : Bool
  pending : Option Nat
  nextId : Nat
deriving DecidableEq

/-- Events driving the coordinator: a cursor or document-list mutation (each
such mutation calls `_saveCurrentState`), the firing of a scheduled timer
callback, and the start and end of the restore window. -/
inductive PersistEvent where
  | mutate
  | timerFire (id : Nat)
  | beginRestore
  | endRestore
deriving DecidableEq

/-- `_saveCurrentState` (src/unnamed/part_001:2173-2205): during restore it
returns immediately; otherwise it clears any pending timer and schedules a
fresh one (single-slot, trailing edge). -/
def saveCurrentState (s : PersistState) : PersistState :=
  if s.isRestoring then s
  else { s with pending := some s.nextId, nextId := s.nextId + 1 }

/-- One coordinator event; the flag records whether a durable write was
performed.  A fired callback writes only when its timer is still the pending
one — `clearTimeout` prevents a superseded callback from ever running. -/
def persistStep : PersistEvent → PersistState → PersistState × Bool
  | .mutate, s => (saveCurrentState s, false)
  | .timerFire id, s =>
    if s.pending = some id then ({ s with pending := none }, true) else (s, false)
  | .beginRestore, s => ({ s with isRestoring := true }, false)
  | .endRestore, s => ({ s with isRestoring := false }, false)

/-- Timer handles already issued are smaller than the generator counter. -/
def persistFresh (s : PersistState) : Prop :=
  ∀ id, s.pending = some id → id < s.nextId

/-! ## Theorems -/

theorem jsJoin_length_congr (sep1 sep2 : List Char) (h : sep1.length = sep2.length) :
    ∀ ls, (jsJoin sep1 ls).length = (jsJoin sep2 ls).length
  | [] => rfl
  | [_] => rfl
  | x :: y :: rest => by
    simp only [jsJoin, List.length_append]
    rw [h, jsJoin_length_congr sep1 sep2 h (y :: rest)]

/-- C10: the narrow surface flattens chapter content by joining lines with a
single space while `getChapterContentAsString` joins with a single newline;
both produce strings of the same length (and `getChapterContentAsString`
returns a string content unchanged), so an offset clamped to
`[0, max 0 (len - 1)]` under one flattening is in range under the other. -/
theorem flatten_length_agree :
    (∀ lines : List (List Char),
        (jsJoin [' '] lines).length = (jsJoin ['\n'] lines).length)
    ∧ (∀ s : List Char, getChapterContentAsString (.str s) = s)
    ∧ ∀ (lines : List (List Char)) (o : Int),
        (0 ≤ o ∧ o ≤ max 0 (((jsJoin [' '] lines).length : Int) - 1)) ↔
          (0 ≤ o ∧ o ≤ max 0 (((jsJoin ['\n'] lines).length : Int) - 1)) := by
  have hjoin : ∀ lines : List (List Char),
      (jsJoin [' '] lines).length = (jsJoin ['\n'] lines).length :=
    jsJoin_length_congr [' '] ['\n'] rfl
  refine ⟨hjoin, fun _ => rfl, fun lines o => ?_⟩
  rw [hjoin lines]

/-- C6: on wide-surface close the reconciler commits the cached character
offset when it is non-zero and otherwise the percentage-derived
`⌊percentage · length⌋`, clamped by `max 0 (min · (length - 1))`; in
particular a cached offset 0 with percentage 0.62 over a 1000-character
chapter commits 620. -/
theorem syncCommit_spec :
    (∀ (content : ChapterContent) (co : Int) (pct : ℚ),
        syncCommitOffset content co pct =
          max 0 (min
            (if co ≠ 0 then co
             else ⌊pct * ((getChapterContentAsString content).length : ℚ)⌋)
            (((getChapterContentAsString content).length : Int) - 1)))
    ∧ syncCommitOffset (.str (List.replicate 1000 'a')) 0 (62 / 100) = 620 := by
  constructor
  · intro content co pct
    unfold syncCommitOffset
    by_cases hco : co = 0
    · subst hco
      by_cases hp : (0 : ℚ) < pct
      · simp [hp]
      · have hple : pct ≤ 0 := le_of_not_lt hp
        have hlen : (0 : ℚ) ≤ ((getChapterContentAsString content).length : ℚ) := by positivity
        have hfl : ⌊pct * ((getChapterContentAsString content).length : ℚ)⌋ ≤ 0 := by
          have : pct * ((getChapterContentAsString content).length : ℚ) ≤ 0 :=
            mul_nonpos_of_nonpos_of_nonneg hple hlen
          exact Int.floor_nonpos this
        simp only [hp, and_false, if_false, ne_eq, not_true_eq_false]
        omega
    · simp [hco]
  · norm_num [syncCommitOffset, getChapterContentAsString]

/-- C9: for an offset already clamped into `[0, max 0 (len - 1)]`, the narrow
surface shows exactly the substring `[offset, min(offset + 80, len))` of the
space-joined chapter text, and the `" [offset-end/total]"` indicator is
appended exactly when the text length exceeds the window width 80. -/
theorem display_window_spec :
    ∀ (content : List (List Char)) (off : Int),
      0 ≤ off →
      off ≤ max 0 (((jsJoin [' '] content).length : Int) - 1) →
      (displayChapterText content off).newOffset = off ∧
      (displayChapterText content off).shown =
        ((jsJoin [' '] content).drop off.toNat).take
          ((min (off + 80) ((jsJoin [' '] content).length : Int)) - off).toNat ∧
      ((displayChapterText content off).indicator ≠ [] ↔
        80 < ((jsJoin [' '] content).length : Int)) ∧
      (80 < ((jsJoin [' '] content).length : Int) →
        (displayChapterText content off).indicator =
          " [".data ++ (toString off).data ++ "-".data ++
            (toString (min (off + 80) ((jsJoin [' '] content).length : Int))).data ++
            "/".data ++ (toString ((jsJoin [' '] content).length : Int)).data ++ "]".data) := by
  intro content off h0 hle
  have hclamp : dispOff content off = off := by
    unfold dispOff dispMaxOff dispTotal dispFull at *
    omega
  have hend : dispEnd content off = min (off + 80) ((jsJoin [' '] content).length : Int) := by
    unfold dispEnd displayLength dispTotal dispFull
    rw [hclamp]
  have htotal : dispTotal content = ((jsJoin [' '] content).length : Int) := rfl
  refine ⟨hclamp, ?_, ?_, ?_⟩
  · show ((dispFull content).drop (dispOff content off).toNat).take
        (dispEnd content off - dispOff content off).toNat = _
    rw [hclamp, hend]
    rfl
  · show (if displayLength < dispTotal content then _ else []) ≠ [] ↔ _
    rw [htotal]
    by_cases h80 : (80 : Int) < ((jsJoin [' '] content).length : Int)
    · simp only [displayLength, h80, if_true, iff_true]
      simp
    · simp [displayLength, h80]
  · intro h80
    show (if displayLength < dispTotal content then _ else []) = _
    rw [htotal]
    simp only [displayLength, h80, if_true]
    rw [hclamp, hend]

/-- C8: no mutation-triggered persistence write can occur while a restore is
in progress (the mutation neither writes nor schedules); outside restore a
mutation performs no immediate write and replaces the pending debounced timer
with exactly one fresh one; a write happens only when the currently pending
timer fires (trailing edge), and the timer pending before a mutation can
never fire a write afterwards (it was cancelled) — the single `pending` slot
holds at most one timer at any time. -/
theorem debounce_spec :
    (∀ s : PersistState, s.isRestoring = true → persistStep .mutate s = (s, false))
    ∧ (∀ s : PersistState, s.isRestoring = false →
        persistStep .mutate s =
          ({ s with pending := some s.nextId, nextId := s.nextId + 1 }, false))
    ∧ (∀ (e : PersistEvent) (s : PersistState),
        (persistStep e s).2 = true → ∃ id, e = .timerFire id ∧ s.pending = some id)
    ∧ (∀ (s : PersistState) (t : Nat), persistFresh s → s.isRestoring = false →
        s.pending = some t →
        (persistStep (.timerFire t) (persistStep .mutate s).1).2 = false)
    ∧ ∀ (e : PersistEvent) (s : PersistState),
        persistFresh s → persistFresh (persistStep e s).1 := by
  refine ⟨?_, ?_, ?_, ?_, ?_⟩
  · intro s h
    simp [persistStep, saveCurrentState, h]
  · intro s h
    simp [persistStep, saveCurrentState, h]
  · intro e s h
    cases e with
    | mutate => simp [persistStep] at h
    | timerFire id =>
      by_cases hp : s.pending = some id
      · exact ⟨id, rfl, hp⟩
      · simp [persistStep, hp] at h
    | beginRestore => simp [persistStep] at h
    | endRestore => simp [persistStep] at h
  · intro s t hfresh hrest hp
    have ht : t < s.nextId := hfresh t hp
    have hne : s.nextId ≠ t := by omega
    simp [persistStep, saveCurrentState, hrest, hne]
  · intro e s hfresh
    cases e with
    | mutate =>
      by_cases hr : s.isRestoring
      · simpa [persistStep, saveCurrentState, hr] using hfresh
      · have hs : (persistStep .mutate s).1 =
            { s with pending := some s.nextId, nextId := s.nextId + 1 } := by
          simp [persistStep, saveCurrentState, hr]
        rw [hs]
        intro id hid
        have hid2 : s.nextId = id := by simpa using hid
        show id < s.nextId + 1
        omega
    | timerFire id2 =>
      by_cases hp : s.pending = some id2
      · intro id hid
        simp [persistStep, hp] at hid
      · simpa [persistStep, hp] using hfresh
    | beginRestore =>
      intro id hid
      simp [persistStep] at hid
      exact hfresh id (by simp [hid])
    | endRestore =>
      intro id hid
      simp [persistStep] at hid
      exact hfresh id (by simp [hid])

theorem dropWhile_append_ne {c : Char} (hc : isJsWs c = false) :
    ∀ l : List Char, (l ++ [c]).dropWhile isJsWs ≠ []
  | [] => by simp [List.dropWhile_cons, hc]
  | a :: l => by
    by_cases ha : isJsWs a
    · simpa [List.dropWhile_cons, ha] using dropWhile_append_ne hc l
    · simp [List.dropWhile_cons, ha]

theorem jsTrim_nil_iff : ∀ s : List Char, jsTrim s = [] ↔ ∀ x ∈ s, isJsWs x
  | [] => by simp [jsTrim]
  | c :: s => by
    by_cases hc : isJsWs c
    · have h1 : jsTrim (c :: s) = jsTrim s := by
        unfold jsTrim
        simp [List.dropWhile_cons, hc]
      rw [h1, jsTrim_nil_iff s]
      simp [hc]
    · constructor
      · intro h
        exfalso
        have h2 : (c :: s).dropWhile isJsWs = c :: s := by
          simp [List.dropWhile_cons, hc]
        unfold jsTrim at h
        rw [h2, List.reverse_cons] at h
        have h4 : ((s.reverse ++ [c]).dropWhile isJsWs).reverse = [] := h
        have h5 : (s.reverse ++ [c]).dropWhile isJsWs = [] := by
          simpa using congrArg List.reverse h4
        exact dropWhile_append_ne (by simpa using hc) s.reverse h5
      · intro h
        exact absurd (h c (by simp)) (by simpa using hc)

theorem splitNl_mem_chars (s : List Char) :
    ∀ p ∈ splitNl s, ∀ c ∈ p, c ∈ s := by
  induction s with
  | nil =>
    intro p hp c hc
    simp only [splitNl, List.mem_singleton] at hp
    subst hp
    simp at hc
  | cons a s ih =>
    intro p hp c hc
    by_cases ha : a = '\n'
    · rw [show splitNl (a :: s) = [] :: splitNl s from by simp only [splitNl, if_pos ha]] at hp
      rcases List.mem_cons.mp hp with rfl | hp
      · simp at hc
      · exact List.mem_cons_of_mem _ (ih p hp c hc)
    · cases hq : splitNl s with
      | nil =>
        rw [show splitNl (a :: s) = [[a]] from by simp only [splitNl, if_neg ha, hq]] at hp
        simp only [List.mem_singleton] at hp
        subst hp
        simp only [List.mem_singleton] at hc
        simp [hc]
      | cons q qs =>
        rw [show splitNl (a :: s) = (a :: q) :: qs from by
          simp only [splitNl, if_neg ha, hq]] at hp
        rcases List.mem_cons.mp hp with rfl | hp
        · rcases List.mem_cons.mp hc with rfl | hc2
          · simp
          · have hq' : q ∈ splitNl s := by rw [hq]; exact List.mem_cons_self _ _
            exact List.mem_cons_of_mem _ (ih q hq' c hc2)
        · have hp' : p ∈ splitNl s := by rw [hq]; exact List.mem_cons_of_mem _ hp
          exact List.mem_cons_of_mem _ (ih p hp' c hc)

theorem splitBlankGo_mem_chars (cur s : List Char) :
    ∀ p ∈ splitBlankGo cur s, ∀ c ∈ p, c ∈ cur ∨ c ∈ s := by
  induction cur, s using splitBlankGo.induct with
  | case1 cur =>
    intro p hp c hc
    rw [splitBlankGo] at hp
    simp only [List.mem_singleton] at hp
    subst hp
    exact Or.inl (List.mem_reverse.mp hc)
  | case2 cur a rest m h ih =>
    intro p hp c hc
    rw [splitBlankGo, h] at hp
    rcases List.mem_cons.mp hp with rfl | hp
    · exact Or.inl (List.mem_reverse.mp hc)
    · rcases ih p hp c hc with h' | h'
      · exact absurd h' (List.not_mem_nil c)
      · exact Or.inr (List.mem_cons_of_mem _ (List.mem_of_mem_drop h'))
  | case3 cur a rest h ih =>
    intro p hp c hc
    rw [splitBlankGo, h] at hp
    rcases ih p hp c hc with h' | h'
    · rcases List.mem_cons.mp h' with rfl | h'
      · exact Or.inr (List.mem_cons_self _ _)
      · exact Or.inl h'
    · exact Or.inr (List.mem_cons_of_mem _ h')

theorem extractGo_all_blank :
    ∀ (lines : List (List Char)) (i : Nat),
      (∀ l ∈ lines, jsTrim l = []) → extractGo i none lines = []
  | [], _, _ => rfl
  | l :: rest, i, h => by
    have hl : jsTrim l = [] := h l (List.mem_cons_self _ _)
    simp only [extractGo, hl, if_pos rfl]
    exact extractGo_all_blank rest (i + 1) fun l' hl' => h l' (List.mem_cons_of_mem _ hl')

theorem blank_fallback_eq {text : List Char} (h : jsTrim text = []) :
    createFallbackChapters text = [⟨"（空内容）".data, 0, []⟩] := by
  have hws : ∀ x ∈ text, isJsWs x := (jsTrim_nil_iff text).mp h
  have hpar : fbParagraphs text = [] := by
    unfold fbParagraphs
    rw [List.filter_eq_nil_iff]
    intro p hp
    rw [splitBlank] at hp
    have hpw : ∀ c ∈ p, isJsWs c := by
      intro c hc
      rcases splitBlankGo_mem_chars [] text p hp c hc with h' | h'
      · exact absurd h' (List.not_mem_nil c)
      · exact hws c h'
    have : jsTrim p = [] := (jsTrim_nil_iff p).mpr hpw
    simp [this]
  have hlin : fbLines text = [] := by
    unfold fbLines
    rw [List.filter_eq_nil_iff]
    intro l hl
    have hlw : ∀ c ∈ l, isJsWs c := fun c hc => hws c (splitNl_mem_chars text l hl c hc)
    have : jsTrim l = [] := (jsTrim_nil_iff l).mpr hlw
    simp [this]
  have hclean : fbClean text = [] := by
    unfold fbClean
    rw [h]
    simp [collapseWs]
  have hraw : fallbackRaw text = [⟨"（空内容）".data, 0, []⟩] := by
    unfold fallbackRaw
    rw [hpar, hlin, hclean]
    simp
  unfold createFallbackChapters
  rw [hraw]
  simp

/-- C4: for input that is entirely blank after trimming the heuristic
segmenter finds no boundary and the fallback emits exactly one sentinel
chapter with the fixed placeholder title `（空内容）` and empty content. -/
theorem blank_input_sentinel :
    ∀ text : List Char, jsTrim text = [] →
      extractChaptersWithFallback text = [⟨"（空内容）".data, 0, []⟩] := by
  intro text h
  have hws : ∀ x ∈ text, isJsWs x := (jsTrim_nil_iff text).mp h
  have hempty : extractChapters text = [] := by
    unfold extractChapters
    refine extractGo_all_blank _ 0 fun l hl => ?_
    exact (jsTrim_nil_iff l).mpr fun c hc => hws c (splitNl_mem_chars text l hl c hc)
  unfold extractChaptersWithFallback
  rw [hempty]
  simpa using blank_fallback_eq h

/-- C4 witness: the concrete blank input `" \n "`. -/
theorem blank_input_sentinel_witness :
    jsTrim " \n ".data = [] ∧
      extractChaptersWithFallback " \n ".data = [⟨"（空内容）".data, 0, []⟩] :=
  ⟨by decide, blank_input_sentinel _ (by decide)⟩

theorem extractGo_skip {l : List Char} (h : matchLine (jsTrim l) = none)
    (i : Nat) (rest : List (List Char)) :
    extractGo i none (l :: rest) = extractGo (i + 1) none rest := by
  by_cases hb : jsTrim l = []
  · simp [extractGo, hb]
  · simp [extractGo, hb, h]

/-- C3: when no boundary rule matches any line, the heuristic segmenter
returns the empty list (never a catch-all chapter); more generally, any
prefix of non-matching lines scanned before the first boundary fires leaves
the scan state untouched, so those lines are not retained in any chapter. -/
theorem no_boundary_empty :
    (∀ text : List Char,
        (∀ l ∈ splitNl text, matchLine (jsTrim l) = none) → extractChapters text = [])
    ∧ ∀ (i : Nat) (pre post : List (List Char)),
        (∀ l ∈ pre, matchLine (jsTrim l) = none) →
        extractGo i none (pre ++ post) = extractGo (i + pre.length) none post := by
  have main : ∀ (i : Nat) (pre post : List (List Char)),
      (∀ l ∈ pre, matchLine (jsTrim l) = none) →
      extractGo i none (pre ++ post) = extractGo (i + pre.length) none post := by
    intro i pre
    induction pre generalizing i with
    | nil => intro post _; simp
    | cons l pre ih =>
      intro post h
      have hl : matchLine (jsTrim l) = none := h l (List.mem_cons_self _ _)
      rw [List.cons_append, extractGo_skip hl,
        ih (i + 1) post fun l' hl' => h l' (List.mem_cons_of_mem _ hl')]
      congr 1
      simp only [List.length_cons]
      omega
  refine ⟨fun text h => ?_, main⟩
  unfold extractChapters
  have := main 0 (splitNl text) [] h
  rw [List.append_nil] at this
  rw [this]
  rfl

/-- C3 witness: `"hello"` matches no boundary rule and segments to `[]`, and
dropping a non-matching prefix line leaves the scan unchanged. -/
theorem no_boundary_empty_witness :
    extractChapters "hello".data = [] ∧
      extractGo 0 none ["hi".data, "第一章 A".data] = extractGo 1 none ["第一章 A".data] := by
  constructor
  · exact no_boundary_empty.1 _ (by decide)
  · have := no_boundary_empty.2 0 ["hi".data] ["第一章 A".data] (by decide)
    simpa using this

theorem jsOr_ne_nil {a b : List Char} (hb : b ≠ []) : jsOr a b ≠ [] := by
  unfold jsOr
  split
  · exact hb
  · assumption

theorem fallback_titles_nonempty :
    ∀ text : List Char, ∀ ch ∈ createFallbackChapters text, ch.title ≠ [] := by
  intro text ch hch
  unfold createFallbackChapters at hch
  split at hch
  · simp only [List.mem_singleton] at hch
    subst hch
    decide
  · unfold fallbackRaw at hch
    split at hch
    · split at hch
      · split at hch
        · simp only [List.mem_singleton] at hch
          subst hch
          decide
        · simp only [List.mem_singleton] at hch
          subst hch
          exact jsOr_ne_nil (by decide)
      · rcases List.mem_map.mp hch with ⟨l, _, rfl⟩
        exact jsOr_ne_nil (by decide)
    · rcases List.mem_filterMap.mp hch with ⟨p, _, hsome⟩
      rcases hls : (splitNl p).filter (fun l => 0 < (jsTrim l).length) with _ | ⟨first, tl⟩
      · rw [hls] at hsome
        simp at hsome
      · rw [hls] at hsome
        simp only [Option.some.injEq] at hsome
        subst hsome
        exact jsOr_ne_nil (by decide)

theorem createFallback_length_pos (text : List Char) :
    0 < (createFallbackChapters text).length := by
  unfold createFallbackChapters
  split
  · simp
  · next h => exact Nat.pos_of_ne_zero h

/-- C2 (amended): any not-entirely-blank input yields at least one chapter,
and every chapter produced by the fallback segmenter has a non-empty title
(heuristic-produced chapters may end up with an empty title when the captured
title reduces to nothing after separator stripping). -/
theorem segmentation_result_spec :
    ∀ text : List Char, jsTrim text ≠ [] →
      0 < (extractChaptersWithFallback text).length ∧
      ∀ ch ∈ createFallbackChapters text, ch.title ≠ [] := by
  intro text _
  refine ⟨?_, fallback_titles_nonempty text⟩
  simp only [extractChaptersWithFallback]
  split
  · assumption
  · exact createFallback_length_pos text

/-- C2 witness: the two-chapter input `"第一章 A\n\nhello"` is not blank and
the amended conclusions hold on it. -/
theorem segmentation_result_spec_witness :
    jsTrim "第一章 A".data ≠ [] ∧
      0 < (extractChaptersWithFallback "第一章 A".data).length ∧
      ∀ ch ∈ createFallbackChapters "第一章 A".data, ch.title ≠ [] :=
  ⟨by decide, segmentation_result_spec "第一章 A".data (by decide)⟩

/-- C2 counterexample: the non-blank input `"第一章 ："` is segmented by the
heuristic into exactly one chapter whose cleaned title is the empty string,
refuting the claim that every chapter title is non-empty. -/
theorem empty_title_cx :
    jsTrim "第一章 ：".data ≠ [] ∧
      extractChaptersWithFallback "第一章 ：".data =
        [{ title := [], startLine := 0, content := [] }] :=
  ⟨by decide, by decide⟩

/-! ### Cursor model lemmas -/

theorem maxOffsetOf_nonneg (ch : Chapter) : 0 ≤ maxOffsetOf ch := le_max_left _ _

theorem posOK_congr {f f' : FileEntry} (h : f'.chapters = f.chapters) {c : Nat} {v : Int}
    (hp : posOK f c v) : posOK f' c v := by
  obtain ⟨ch, hch, hv⟩ := hp
  exact ⟨ch, by rw [h, hch], hv⟩

theorem lookupPos_posOK {f : FileEntry} (hmap : posMapOK f) {i : Nat} {ch : Chapter}
    (hch : f.chapters.get? i = some ch) : posOK f i (lookupPos f.chapterPositions i) := by
  unfold lookupPos
  cases hfind : f.chapterPositions.find? (fun p => p.1 == i) with
  | none =>
    simp only [hfind, Option.map_none', Option.getD_none]
    exact ⟨ch, hch, le_refl _, maxOffsetOf_nonneg ch⟩
  | some entry =>
    simp only [hfind, Option.map_some', Option.getD_some]
    have hmem : entry ∈ f.chapterPositions := List.mem_of_find?_eq_some hfind
    have hkey : entry.1 = i := by
      have := List.find?_some hfind
      simpa using this
    have := hmap entry hmem
    rw [hkey] at this
    exact this

theorem stepFwd_noop {k : Int} {s : RState}
    (h : s.currentChapter = none ∨ s.currentFile = none) : stepFwd k s = some s := by
  unfold stepFwd
  rcases h with h | h
  · rw [h]
  · rw [h]
    cases s.currentChapter <;> rfl

theorem stepBack_noop {k : Int} {s : RState}
    (h : s.currentChapter = none ∨ s.currentFile = none) : stepBack k s = some s := by
  unfold stepBack
  rcases h with h | h
  · rw [h]
  · rw [h]
    cases s.currentChapter <;> rfl

theorem displayClampState_eq (s : RState) (ch : Chapter) :
    displayClampState s (some ch) =
      { s with scrollOffset :=
          if s.statusBarVisible then max 0 (min s.scrollOffset (maxOffsetOf ch))
          else s.scrollOffset } := by
  show (if s.statusBarVisible then
      { s with scrollOffset := max 0 (min s.scrollOffset (maxOffsetOf ch)) }
    else s) = _
  by_cases hv : s.statusBarVisible
  · rw [if_pos hv, if_pos hv]
  · rw [if_neg hv, if_neg hv]

theorem savePos_eq {s : RState} {f : FileEntry} (hf : s.currentFile = some f) (c : Nat) (v : Int) :
    savePos s c v =
      { s with
        currentFile := some { f with chapterPositions := (c, v) :: f.chapterPositions } } := by
  unfold savePos
  rw [hf]

theorem stepFwd_spec {s : RState} {f : FileEntry} {c : Nat} {ch : Chapter} (k : Int)
    (hk : 0 ≤ k) (hf : s.currentFile = some f) (hc : s.currentChapter = some c)
    (hch : f.chapters.get? c = some ch)
    (h0 : 0 ≤ s.scrollOffset) (hle : s.scrollOffset ≤ maxOffsetOf ch) :
    ∃ s', stepFwd k s = some s' ∧
      s'.scrollOffset = max 0 (min (s.scrollOffset + k) (maxOffsetOf ch)) ∧
      s'.currentChapter = some c ∧
      ∃ f', s'.currentFile = some f' ∧ f'.chapters = f.chapters ∧
        (f'.chapterPositions = f.chapterPositions ∨
          f'.chapterPositions = (c, s'.scrollOffset) :: f.chapterPositions) := by
  unfold stepFwd
  simp only [hc, hf, hch]
  by_cases hmove : s.scrollOffset < maxOffsetOf ch
  · rw [if_pos hmove, displayClampState_eq, savePos_eq rfl]
    refine ⟨_, rfl, ?_, rfl, _, rfl, rfl, Or.inr rfl⟩
    by_cases hv : s.statusBarVisible
    · simp only [hv, if_true]
      omega
    · simp only [hv, Bool.false_eq_true, if_false]
      omega
  · rw [if_neg hmove]
    refine ⟨s, rfl, by omega, hc, f, hf, rfl, Or.inl rfl⟩

theorem stepBack_spec {s : RState} {f : FileEntry} {c : Nat} {ch : Chapter} (k : Int)
    (hk : 0 ≤ k) (hf : s.currentFile = some f) (hc : s.currentChapter = some c)
    (hch : f.chapters.get? c = some ch)
    (h0 : 0 ≤ s.scrollOffset) (hle : s.scrollOffset ≤ maxOffsetOf ch) :
    ∃ s', stepBack k s = some s' ∧
      s'.scrollOffset = max 0 (min (s.scrollOffset - k) (maxOffsetOf ch)) ∧
      s'.currentChapter = some c ∧
      ∃ f', s'.currentFile = some f' ∧ f'.chapters = f.chapters ∧
        (f'.chapterPositions = f.chapterPositions ∨
          f'.chapterPositions = (c, s'.scrollOffset) :: f.chapterPositions) := by
  unfold stepBack
  simp only [hc, hf, hch]
  by_cases hmove : 0 < s.scrollOffset
  · rw [if_pos hmove, displayClampState_eq, savePos_eq rfl]
    refine ⟨_, rfl, ?_, rfl, _, rfl, rfl, Or.inr rfl⟩
    by_cases hv : s.statusBarVisible
    · simp only [hv, if_true]
      omega
    · simp only [hv, Bool.false_eq_true, if_false]
      omega
  · rw [if_neg hmove]
    refine ⟨s, rfl, by omega, hc, f, hf, rfl, Or.inl rfl⟩

theorem goodState_iff_some_some {s : RState} {f : FileEntry} {c : Nat}
    (hf : s.currentFile = some f) (hc : s.currentChapter = some c) :
    GoodState s ↔ posOK f c s.scrollOffset ∧ posMapOK f := by
  unfold GoodState
  rw [hf, hc]

theorem goodState_iff_some_none {s : RState} {f : FileEntry}
    (hf : s.currentFile = some f) (hc : s.currentChapter = none) :
    GoodState s ↔ s.scrollOffset = 0 ∧ posMapOK f := by
  unfold GoodState
  rw [hf, hc]

theorem goodState_iff_none {s : RState} (hf : s.currentFile = none) :
    GoodState s ↔ s.currentChapter = none ∧ s.scrollOffset = 0 := by
  unfold GoodState
  rw [hf]

theorem selectChapterOp_noop_nofile {i : Int} {s : RState} (h : s.currentFile = none) :
    selectChapterOp i s = some s := by
  unfold selectChapterOp
  rw [h]

theorem selectChapterOp_noop_oob {s : RState} {f : FileEntry} {i : Int}
    (hf : s.currentFile = some f) (h : i < 0 ∨ (f.chapters.length : Int) ≤ i) :
    selectChapterOp i s = some s := by
  unfold selectChapterOp
  simp only [hf]
  have h' : ¬(0 ≤ i ∧ i < (f.chapters.length : Int)) := by
    rcases h with h | h
    · omega
    · omega
  rw [if_neg h']

theorem selectChapterOp_spec {s : RState} {f : FileEntry} {c : Nat} (i : Int)
    (hf : s.currentFile = some f) (hc : s.currentChapter = some c)
    (hgood : GoodState s)
    (h0 : 0 ≤ i) (hi : i < (f.chapters.length : Int)) (hne : c ≠ i.toNat) :
    selectChapterOp i s = some
      { currentFile := some { f with chapterPositions := (c, s.scrollOffset) :: f.chapterPositions }
      , currentChapter := some i.toNat
      , scrollOffset := lookupPos ((c, s.scrollOffset) :: f.chapterPositions) i.toNat
      , statusBarVisible := s.statusBarVisible } := by
  obtain ⟨hpos, hmap⟩ := (goodState_iff_some_some hf hc).mp hgood
  have hlt : i.toNat < f.chapters.length := by omega
  obtain ⟨ch', hch'⟩ : ∃ ch', f.chapters.get? i.toNat = some ch' := by
    rw [List.get?_eq_get hlt]
    exact ⟨_, rfl⟩
  set f1 : FileEntry :=
    { f with chapterPositions := (c, s.scrollOffset) :: f.chapterPositions } with hf1
  have hmap1 : posMapOK f1 := by
    intro p hp
    rcases List.mem_cons.mp hp with rfl | hp
    · exact posOK_congr (by rw [hf1]) hpos
    · exact posOK_congr (by rw [hf1]) (hmap p hp)
  have hch1 : f1.chapters.get? i.toNat = some ch' := by rw [hf1]; exact hch'
  have hlook := lookupPos_posOK hmap1 hch1
  obtain ⟨ch'', hch'', hv0, hvle⟩ := hlook
  rw [hch1] at hch''
  have hch2 : ch'' = ch' := (Option.some.inj hch'').symm
  subst hch2
  unfold selectChapterOp
  simp only [hf]
  rw [if_pos ⟨h0, hi⟩]
  simp only [hc]
  rw [if_pos hne, savePos_eq hf]
  unfold getPos
  simp only [hch']
  rw [displayClampState_eq]
  congr 1
  by_cases hvis : s.statusBarVisible
  · simp only [hvis, if_true]
    congr 1
    have : lookupPos f1.chapterPositions i.toNat =
        lookupPos ((c, s.scrollOffset) :: f.chapterPositions) i.toNat := by rw [hf1]
    rw [this] at hv0 hvle
    omega
  · simp only [hvis, Bool.false_eq_true, if_false]

theorem goodState_clamped {f : FileEntry} {iN : Nat} {ch : Chapter} {v : Int}
    (hch : f.chapters.get? iN = some ch) (hmap : posMapOK f)
    (hl0 : 0 ≤ v) (hlle : v ≤ maxOffsetOf ch) (vis : Bool) :
    GoodState ⟨some f, some iN, if vis = true then max 0 (min v (maxOffsetOf ch)) else v,
      vis⟩ := by
  rw [goodState_iff_some_some rfl rfl]
  have hmax := maxOffsetOf_nonneg ch
  refine ⟨⟨ch, hch, ?_, ?_⟩, fun p hp => posOK_congr rfl (hmap p hp)⟩
  · show (0 : Int) ≤ if vis = true then _ else _
    split <;> omega
  · show (if vis = true then _ else _) ≤ maxOffsetOf ch
    split <;> omega

theorem selectChapterOp_good (i : Int) {s : RState} (h : GoodState s) :
    ∃ s', selectChapterOp i s = some s' ∧ GoodState s' := by
  cases hfq : s.currentFile with
  | none => exact ⟨s, selectChapterOp_noop_nofile hfq, h⟩
  | some f =>
    by_cases hrange : 0 ≤ i ∧ i < (f.chapters.length : Int)
    · obtain ⟨h0, hi⟩ := hrange
      have hlt : i.toNat < f.chapters.length := by omega
      obtain ⟨ch1, hch1⟩ : ∃ ch1, f.chapters.get? i.toNat = some ch1 := by
        rw [List.get?_eq_get hlt]
        exact ⟨_, rfl⟩
      have hgetpos : getPos s i.toNat = lookupPos f.chapterPositions i.toNat := by
        unfold getPos
        rw [hfq]
      cases hcq : s.currentChapter with
      | none =>
        obtain ⟨hoff0, hmap⟩ := (goodState_iff_some_none hfq hcq).mp h
        obtain ⟨ch2, hch2, hl0, hlle⟩ := lookupPos_posOK hmap hch1
        have hcheq : ch2 = ch1 := Option.some.inj (hch2.symm.trans hch1)
        rw [hcheq] at hlle
        have hsel : selectChapterOp i s = some ⟨some f, some i.toNat,
            (if s.statusBarVisible = true
             then max 0 (min (lookupPos f.chapterPositions i.toNat) (maxOffsetOf ch1))
             else lookupPos f.chapterPositions i.toNat), s.statusBarVisible⟩ := by
          unfold selectChapterOp
          simp only [hfq]
          rw [if_pos ⟨h0, hi⟩]
          simp only [hcq]
          rw [hch1, displayClampState_eq]
          simp [hfq, hgetpos]
        exact ⟨_, hsel, goodState_clamped hch1 hmap hl0 hlle s.statusBarVisible⟩
      | some c =>
        obtain ⟨hpos, hmap⟩ := (goodState_iff_some_some hfq hcq).mp h
        by_cases hcne : c ≠ i.toNat
        · have hsel := selectChapterOp_spec i hfq hcq h h0 hi hcne
          set f1 : FileEntry :=
            { f with chapterPositions := (c, s.scrollOffset) :: f.chapterPositions } with hf1
          have hmap1 : posMapOK f1 := by
            intro p hp
            rcases List.mem_cons.mp (show p ∈ (c, s.scrollOffset) :: f.chapterPositions from hp)
              with heq | hp'
            · rw [heq]
              exact posOK_congr rfl hpos
            · exact posOK_congr rfl (hmap p hp')
          have hch3 : f1.chapters.get? i.toNat = some ch1 := hch1
          obtain ⟨ch2, hch2, hl0, hlle⟩ := lookupPos_posOK hmap1 hch3
          have hcheq : ch2 = ch1 := Option.some.inj (hch2.symm.trans hch3)
          rw [hcheq] at hlle
          refine ⟨_, hsel, ?_⟩
          rw [goodState_iff_some_some rfl rfl]
          exact ⟨⟨ch1, hch3, hl0, hlle⟩, hmap1⟩
        · obtain ⟨ch2, hch2, hl0, hlle⟩ := lookupPos_posOK hmap hch1
          have hcheq : ch2 = ch1 := Option.some.inj (hch2.symm.trans hch1)
          rw [hcheq] at hlle
          have hsel : selectChapterOp i s = some ⟨some f, some i.toNat,
              (if s.statusBarVisible = true
               then max 0 (min (lookupPos f.chapterPositions i.toNat) (maxOffsetOf ch1))
               else lookupPos f.chapterPositions i.toNat), s.statusBarVisible⟩ := by
            unfold selectChapterOp
            simp only [hfq]
            rw [if_pos ⟨h0, hi⟩]
            simp only [hcq]
            rw [if_neg hcne, hch1, displayClampState_eq]
            simp [hfq, hgetpos]
          exact ⟨_, hsel, goodState_clamped hch1 hmap hl0 hlle s.statusBarVisible⟩
    · refine ⟨s, selectChapterOp_noop_oob hfq ?_, h⟩
      rcases not_and_or.mp hrange with h' | h'
      · exact Or.inl (by omega)
      · exact Or.inr (by omega)


theorem applyNav_good (op : NavOp) {s : RState} (h : GoodState s) :
    ∃ s', applyNav op s = some s' ∧ GoodState s' := by
  have hstep : ∀ k : Int, 0 ≤ k →
      (∃ s', stepFwd k s = some s' ∧ GoodState s') ∧
      (∃ s', stepBack k s = some s' ∧ GoodState s') := by
    intro k hk
    cases hfq : s.currentFile with
    | none =>
      exact ⟨⟨s, stepFwd_noop (Or.inr hfq), h⟩, ⟨s, stepBack_noop (Or.inr hfq), h⟩⟩
    | some f =>
      cases hcq : s.currentChapter with
      | none =>
        exact ⟨⟨s, stepFwd_noop (Or.inl hcq), h⟩, ⟨s, stepBack_noop (Or.inl hcq), h⟩⟩
      | some c =>
        obtain ⟨hpos, hmap⟩ := (goodState_iff_some_some hfq hcq).mp h
        obtain ⟨ch, hch, h0, hle⟩ := hpos
        have hmax := maxOffsetOf_nonneg ch
        constructor
        · obtain ⟨s', hs', hoff, hc', f', hf', hchs, hps⟩ :=
            stepFwd_spec k hk hfq hcq hch h0 hle
          refine ⟨s', hs', ?_⟩
          rw [goodState_iff_some_some hf' hc']
          have hch2 : f'.chapters.get? c = some ch := by rw [hchs]; exact hch
          refine ⟨⟨ch, hch2, by omega, by omega⟩, ?_⟩
          intro p hp
          rcases hps with hps | hps
          · rw [hps] at hp
            exact posOK_congr hchs (hmap p hp)
          · rw [hps] at hp
            rcases List.mem_cons.mp hp with rfl | hp'
            · exact ⟨ch, hch2, by omega, by omega⟩
            · exact posOK_congr hchs (hmap p hp')
        · obtain ⟨s', hs', hoff, hc', f', hf', hchs, hps⟩ :=
            stepBack_spec k hk hfq hcq hch h0 hle
          refine ⟨s', hs', ?_⟩
          rw [goodState_iff_some_some hf' hc']
          have hch2 : f'.chapters.get? c = some ch := by rw [hchs]; exact hch
          refine ⟨⟨ch, hch2, by omega, by omega⟩, ?_⟩
          intro p hp
          rcases hps with hps | hps
          · rw [hps] at hp
            exact posOK_congr hchs (hmap p hp)
          · rw [hps] at hp
            rcases List.mem_cons.mp hp with rfl | hp'
            · exact ⟨ch, hch2, by omega, by omega⟩
            · exact posOK_congr hchs (hmap p hp')
  cases op with
  | scrollLeft => exact (hstep 10 (by norm_num)).2
  | scrollRight => exact (hstep 10 (by norm_num)).1
  | previousPage => exact (hstep 80 (by norm_num)).2
  | nextPage => exact (hstep 80 (by norm_num)).1
  | selectChapter i => exact selectChapterOp_good i h

theorem runNav_good :
    ∀ (ops : List NavOp) (s s' : RState),
      GoodState s → runNav ops s = some s' → GoodState s' := by
  intro ops
  induction ops with
  | nil =>
    intro s s' h hrun
    simp only [runNav, Option.some.injEq] at hrun
    rwa [← hrun]
  | cons op ops ih =>
    intro s s' h hrun
    obtain ⟨s1, h1, hg1⟩ := applyNav_good op h
    rw [runNav, h1, Option.some_bind] at hrun
    exact ih s1 s' hg1 hrun

theorem applyNav_init (op : NavOp) : applyNav op initReaderState = some initReaderState := by
  cases op with
  | scrollLeft =>
    show stepBack 10 initReaderState = some initReaderState
    exact stepBack_noop (Or.inl rfl)
  | scrollRight =>
    show stepFwd 10 initReaderState = some initReaderState
    exact stepFwd_noop (Or.inl rfl)
  | previousPage =>
    show stepBack 80 initReaderState = some initReaderState
    exact stepBack_noop (Or.inl rfl)
  | nextPage =>
    show stepFwd 80 initReaderState = some initReaderState
    exact stepFwd_noop (Or.inl rfl)
  | selectChapter i =>
    show selectChapterOp i initReaderState = some initReaderState
    exact selectChapterOp_noop_nofile rfl

theorem runNav_init : ∀ ops : List NavOp, runNav ops initReaderState = some initReaderState := by
  intro ops
  induction ops with
  | nil => rfl
  | cons op ops ih => rw [runNav, applyNav_init, Option.some_bind, ih]

/-- The signed step size of each small-step / page-jump navigation command. -/
def stepDelta : NavOp → Option Int
  | .scrollLeft => some (-10)
  | .scrollRight => some 10
  | .previousPage => some (-80)
  | .nextPage => some 80
  | .selectChapter _ => none

/-- C1: the cursor invariant `GoodState` (offset in `[0, maxOffset]` of the
selected chapter, 0 when nothing is selected, map entries in range) is
preserved by every sequence of navigation operations; every sequence applied
to the initial state (nothing loaded, offset 0) is a no-op; a `GoodState`
offset never leaves `[0, maxOffset]`; and each step operation computes
`clamp(offset + delta, 0, maxOffset)` over the current chapter. -/
theorem cursor_invariant_spec :
    (∀ (ops : List NavOp) (s s' : RState),
        GoodState s → runNav ops s = some s' → GoodState s')
    ∧ (∀ ops : List NavOp,
        runNav ops initReaderState = some initReaderState ∧
          initReaderState.scrollOffset = 0)
    ∧ (∀ (s : RState) (f : FileEntry) (c : Nat) (ch : Chapter),
        GoodState s → s.currentFile = some f → s.currentChapter = some c →
        f.chapters.get? c = some ch →
        0 ≤ s.scrollOffset ∧ s.scrollOffset ≤ maxOffsetOf ch)
    ∧ ∀ (op : NavOp) (δ : Int) (s : RState) (f : FileEntry) (c : Nat) (ch : Chapter),
        stepDelta op = some δ → GoodState s →
        s.currentFile = some f → s.currentChapter = some c →
        f.chapters.get? c = some ch →
        ∃ s', applyNav op s = some s' ∧
          s'.scrollOffset = max 0 (min (s.scrollOffset + δ) (maxOffsetOf ch)) := by
  refine ⟨runNav_good, fun ops => ⟨runNav_init ops, rfl⟩, ?_, ?_⟩
  · intro s f c ch h hf hc hch
    obtain ⟨hpos, _⟩ := (goodState_iff_some_some hf hc).mp h
    obtain ⟨ch2, hch2, h0, hle⟩ := hpos
    have : ch2 = ch := Option.some.inj (hch2.symm.trans hch)
    subst this
    exact ⟨h0, hle⟩
  · intro op δ s f c ch hδ h hf hc hch
    obtain ⟨hpos, _⟩ := (goodState_iff_some_some hf hc).mp h
    obtain ⟨ch2, hch2, h0, hle⟩ := hpos
    have hcheq : ch2 = ch := Option.some.inj (hch2.symm.trans hch)
    subst hcheq
    cases op with
    | scrollLeft =>
      obtain ⟨s', hs', hoff, _⟩ := stepBack_spec 10 (by norm_num) hf hc hch h0 hle
      have hδ' : δ = -10 := (Option.some.inj hδ).symm
      subst hδ'
      exact ⟨s', hs', by omega⟩
    | scrollRight =>
      obtain ⟨s', hs', hoff, _⟩ := stepFwd_spec 10 (by norm_num) hf hc hch h0 hle
      have hδ' : δ = 10 := (Option.some.inj hδ).symm
      subst hδ'
      exact ⟨s', hs', by omega⟩
    | previousPage =>
      obtain ⟨s', hs', hoff, _⟩ := stepBack_spec 80 (by norm_num) hf hc hch h0 hle
      have hδ' : δ = -80 := (Option.some.inj hδ).symm
      subst hδ'
      exact ⟨s', hs', by omega⟩
    | nextPage =>
      obtain ⟨s', hs', hoff, _⟩ := stepFwd_spec 80 (by norm_num) hf hc hch h0 hle
      have hδ' : δ = 80 := (Option.some.inj hδ).symm
      subst hδ'
      exact ⟨s', hs', by omega⟩
    | selectChapter i => exact absurd hδ (by simp [stepDelta])

/-- C5: `setChapter(i)` is a no-op on an out-of-range index; on an in-range
index different from the current chapter it first stores the outgoing
chapter's offset into the per-chapter offset map and then sets the cursor
offset to the incoming chapter's entry of the updated map (default 0). -/
theorem setChapter_spec :
    (∀ (s : RState) (f : FileEntry) (i : Int), s.currentFile = some f →
        i < 0 ∨ (f.chapters.length : Int) ≤ i → selectChapterOp i s = some s)
    ∧ ∀ (s : RState) (f : FileEntry) (c : Nat) (i : Int),
        GoodState s → s.currentFile = some f → s.currentChapter = some c →
        0 ≤ i → i < (f.chapters.length : Int) → c ≠ i.toNat →
        selectChapterOp i s = some
          { currentFile :=
              some { f with chapterPositions := (c, s.scrollOffset) :: f.chapterPositions }
          , currentChapter := some i.toNat
          , scrollOffset := lookupPos ((c, s.scrollOffset) :: f.chapterPositions) i.toNat
          , statusBarVisible := s.statusBarVisible } :=
  ⟨fun _ _ _ hf hoob => selectChapterOp_noop_oob hf hoob,
   fun _ _ _ i hg hf hc h0 hi hne => selectChapterOp_spec i hf hc hg h0 hi hne⟩

/-- A small concrete chapter (flattened text `"abc"`, maxOffset 2) used by the
state-machine witnesses. -/
def sampleChapter : Chapter := ⟨['T'], 0, [['a', 'b', 'c']]⟩

def sampleChapterB : Chapter := ⟨['U'], 1, [['x', 'y', 'z']]⟩

def sampleFile : FileEntry := ⟨[sampleChapter], []⟩

def sampleState : RState := ⟨some sampleFile, some 0, 1, true⟩

def sampleFile2 : FileEntry := ⟨[sampleChapter, sampleChapterB], [(1, 1)]⟩

def sampleState2 : RState := ⟨some sampleFile2, some 0, 2, true⟩

theorem sampleState_good : GoodState sampleState := by
  rw [goodState_iff_some_some rfl rfl]
  exact ⟨⟨sampleChapter, rfl, by decide, by decide⟩,
    fun p hp => absurd hp (List.not_mem_nil p)⟩

theorem sampleState2_good : GoodState sampleState2 := by
  rw [goodState_iff_some_some rfl rfl]
  refine ⟨⟨sampleChapter, rfl, by decide, by decide⟩, ?_⟩
  intro p hp
  have hp' : p = (1, 1) := List.mem_singleton.mp hp
  rw [hp']
  exact ⟨sampleChapterB, rfl, by decide, by decide⟩

/-- C1 witness: concrete instances of all four conjuncts. -/
theorem cursor_invariant_spec_witness :
    GoodState sampleState ∧
    (∃ s', runNav [NavOp.scrollRight] sampleState = some s' ∧ GoodState s') ∧
    (runNav [NavOp.scrollRight, NavOp.selectChapter 0] initReaderState =
        some initReaderState ∧ initReaderState.scrollOffset = 0) ∧
    (0 ≤ sampleState.scrollOffset ∧ sampleState.scrollOffset ≤ maxOffsetOf sampleChapter) ∧
    ∃ s', applyNav NavOp.scrollRight sampleState = some s' ∧
      s'.scrollOffset = max 0 (min (sampleState.scrollOffset + 10) (maxOffsetOf sampleChapter)) := by
  refine ⟨sampleState_good, ?_, cursor_invariant_spec.2.1 _, ?_, ?_⟩
  · refine ⟨⟨some ⟨[sampleChapter], [(0, 2)]⟩, some 0, 2, true⟩, by decide, ?_⟩
    exact cursor_invariant_spec.1 [NavOp.scrollRight] sampleState _ sampleState_good (by decide)
  · exact cursor_invariant_spec.2.2.1 sampleState sampleFile 0 sampleChapter
      sampleState_good rfl rfl rfl
  · exact cursor_invariant_spec.2.2.2 NavOp.scrollRight 10 sampleState sampleFile 0
      sampleChapter rfl sampleState_good rfl rfl rfl

/-- C5 witness: an out-of-range select is a no-op, and an in-range select of a
different chapter saves the outgoing offset and restores the incoming one. -/
theorem setChapter_spec_witness :
    selectChapterOp 5 sampleState2 = some sampleState2 ∧
    selectChapterOp 1 sampleState2 = some
      { currentFile :=
          some { sampleFile2 with
            chapterPositions := (0, sampleState2.scrollOffset) :: sampleFile2.chapterPositions }
      , currentChapter := some (1 : Int).toNat
      , scrollOffset :=
          lookupPos ((0, sampleState2.scrollOffset) :: sampleFile2.chapterPositions) (1 : Int).toNat
      , statusBarVisible := sampleState2.statusBarVisible } :=
  ⟨setChapter_spec.1 sampleState2 sampleFile2 5 rfl (Or.inr (by decide)),
   setChapter_spec.2 sampleState2 sampleFile2 0 1 sampleState2_good rfl rfl
     (by decide) (by decide) (by decide)⟩

/-- C7 counterexample: a pasted document whose stored text resegments into 3
chapters and whose stored `lastChapter` is 5 is restored with `lastChapter`
still 5 and the stored offset intact — startup restore does not validate the
chapter index of pasted documents, refuting the claim that it does so for
every successfully restored document. -/
theorem restore_validation_cx :
    (restorePastedDoc ⟨"第一章 A\n第二章 B\n第三章 C".data, some 5, some 42⟩).chapters.length = 3 ∧
    (restorePastedDoc ⟨"第一章 A\n第二章 B\n第三章 C".data, some 5, some 42⟩).lastChapter = some 5 ∧
    (restorePastedDoc ⟨"第一章 A\n第二章 B\n第三章 C".data, some 5, some 42⟩).lastScrollOffset = 42 :=
  ⟨by decide, rfl, rfl⟩

/-- C7 (amended): the restore-time `lastChapterIndex` validation applies to
successfully reloaded file-backed documents — an out-of-range stored index
resets both the stored chapter and the stored offset to 0, an in-range one is
kept — while a pasted document keeps its stored index unvalidated at restore;
the out-of-range reset to chapter 0 / offset 0 also happens whenever a
restored document's reading position is installed by
`_restoreFileReadingPosition` (in particular for the previously active
document, and scenario `lastChapter = 5` against 3 chapters restores to
chapter 0, offset 0 there). -/
theorem restore_validation_spec :
    (∀ (saved : SavedDocRecord) (fresh : List Chapter) (lc : Int),
        saved.lastChapter = some lc → (fresh.length : Int) ≤ lc →
        (restoreLoadedFileDoc saved fresh).lastChapter = some 0 ∧
          (restoreLoadedFileDoc saved fresh).lastScrollOffset = 0)
    ∧ (∀ (saved : SavedDocRecord) (fresh : List Chapter) (lc : Int),
        saved.lastChapter = some lc → lc < (fresh.length : Int) →
        (restoreLoadedFileDoc saved fresh).lastChapter = some lc ∧
          (restoreLoadedFileDoc saved fresh).lastScrollOffset = saved.lastScrollOffset.getD 0)
    ∧ (∀ saved : SavedDocRecord,
        (restorePastedDoc saved).lastChapter = saved.lastChapter ∧
          (restorePastedDoc saved).lastScrollOffset = saved.lastScrollOffset.getD 0)
    ∧ ∀ (doc : RestoredDoc) (lc : Int),
        doc.lastChapter = some lc → (doc.chapters.length : Int) ≤ lc →
        0 < doc.chapters.length →
        restoreFileReadingPosition doc = (some 0, 0) := by
  refine ⟨?_, ?_, fun saved => ⟨rfl, rfl⟩, ?_⟩
  · intro saved fresh lc hlc hle
    unfold restoreLoadedFileDoc
    simp only [hlc]
    rw [if_pos hle]
    exact ⟨rfl, rfl⟩
  · intro saved fresh lc hlc hlt
    unfold restoreLoadedFileDoc
    simp only [hlc]
    rw [if_neg (by omega)]
    exact ⟨rfl, rfl⟩
  · intro doc lc hlc hle hpos
    unfold restoreFileReadingPosition
    simp only [hlc]
    rw [if_pos hle, if_pos hpos]

/-- C7 witness: concrete instances of the amended conjuncts. -/
theorem restore_validation_spec_witness :
    ((restoreLoadedFileDoc ⟨['x'], some 5, some 7⟩
        [⟨['A'], 0, []⟩, ⟨['B'], 0, []⟩, ⟨['C'], 0, []⟩]).lastChapter = some 0 ∧
      (restoreLoadedFileDoc ⟨['x'], some 5, some 7⟩
        [⟨['A'], 0, []⟩, ⟨['B'], 0, []⟩, ⟨['C'], 0, []⟩]).lastScrollOffset = 0) ∧
    ((restoreLoadedFileDoc ⟨['x'], some 1, some 7⟩
        [⟨['A'], 0, []⟩, ⟨['B'], 0, []⟩, ⟨['C'], 0, []⟩]).lastChapter = some 1 ∧
      (restoreLoadedFileDoc ⟨['x'], some 1, some 7⟩
        [⟨['A'], 0, []⟩, ⟨['B'], 0, []⟩, ⟨['C'], 0, []⟩]).lastScrollOffset =
        (Option.some (7 : Int)).getD 0) ∧
    ((restorePastedDoc ⟨['h', 'i'], some 3, none⟩).lastChapter = some 3 ∧
      (restorePastedDoc ⟨['h', 'i'], some 3, none⟩).lastScrollOffset =
        (Option.none (α := Int)).getD 0) ∧
    restoreFileReadingPosition ⟨[⟨['A'], 0, []⟩], some 9, 4⟩ = (some 0, 0) :=
  ⟨restore_validation_spec.1 ⟨['x'], some 5, some 7⟩ _ 5 rfl (by decide),
   restore_validation_spec.2.1 ⟨['x'], some 1, some 7⟩ _ 1 rfl (by decide),
   restore_validation_spec.2.2.1 ⟨['h', 'i'], some 3, none⟩,
   restore_validation_spec.2.2.2 ⟨[⟨['A'], 0, []⟩], some 9, 4⟩ 9 rfl (by decide) (by decide)⟩

/-- C9 witness: the three-character content `"abc"` at offset 1 (indicator
suppressed), and a 100-character content at offset 1 (indicator present). -/
theorem display_window_spec_witness :
    (displayChapterText [['a', 'b', 'c']] 1).newOffset = 1 ∧
    (displayChapterText [['a', 'b', 'c']] 1).shown = ['b', 'c'] ∧
    (displayChapterText [['a', 'b', 'c']] 1).indicator = [] ∧
    (displayChapterText [List.replicate 100 'a'] 1).indicator ≠ [] := by
  have h := display_window_spec [['a', 'b', 'c']] 1 (by decide) (by decide)
  have h2 := display_window_spec [List.replicate 100 'a'] 1 (by decide) (by decide)
  refine ⟨h.1, ?_, ?_, ?_⟩
  · rw [h.2.1]
    decide
  · have hiff := h.2.2.1
    have hlt : ¬(80 : Int) < ((jsJoin [' '] [['a', 'b', 'c']]).length : Int) := by decide
    exact not_not.mp fun hne => hlt (hiff.mp hne)
  · exact h2.2.2.1.mpr (by decide)

/-- C8 witness: concrete coordinator states for each conjunct. -/
theorem debounce_spec_witness :
    persistStep .mutate ⟨true, none, 0⟩ = (⟨true, none, 0⟩, false) ∧
    persistStep .mutate ⟨false, some 5, 7⟩ =
      ({ (⟨false, some 5, 7⟩ : PersistState) with pending := some 7, nextId := 8 }, false) ∧
    (∃ id, PersistEvent.timerFire 3 = .timerFire id ∧
      (⟨false, some 3, 4⟩ : PersistState).pending = some id) ∧
    (persistStep (.timerFire 5) (persistStep .mutate ⟨false, some 5, 7⟩).1).2 = false ∧
    persistFresh (persistStep .mutate ⟨false, some 5, 7⟩).1 :=
  ⟨debounce_spec.1 ⟨true, none, 0⟩ rfl,
   debounce_spec.2.1 ⟨false, some 5, 7⟩ rfl,
   debounce_spec.2.2.1 (.timerFire 3) ⟨false, some 3, 4⟩ (by decide),
   debounce_spec.2.2.2.1 ⟨false, some 5, 7⟩ 5
     (fun id hid => by simp at hid; show id < 7; omega) rfl rfl,
   debounce_spec.2.2.2.2 .mutate ⟨false, some 5, 7⟩
     (fun id hid => by simp at hid; show id < 7; omega)⟩

end ThiefReader
